import Mathlib

/-!
Verification development of the process- and memory-management core of the
os5 kernel lab (src/os5/src/task/manager.rs and src/os5/src/syscall/process.rs).

The code is shallowly embedded: usize values are Nat (with explicit
two-complement casts where the code converts between usize and isize),
the external AddressSpace collaborator (crate::mm::MemorySet, outside the
provided sources) is modelled from the spec as an association list from
virtual page numbers to page-table entries, and the mutable kernel state is
threaded explicitly.
-/

namespace OS5

/-- Page size of the platform (4 KiB pages, as in the rCore kernels). -/
def PAGE_SIZE : Nat := 4096

/-- Width of usize on the target (64-bit RISC-V): 2 ^ 64. -/
def USIZE_MOD : Nat := 18446744073709551616

/-- Rust cast `as usize` applied to an isize value: two-complement wrap into
the interval [0, 2 ^ 64). -/
def isize_to_usize (p : Int) : Nat := (p % (USIZE_MOD : Int)).toNat

/-- Rust cast `as isize` applied to a usize value: two-complement
reinterpretation. -/
def usize_to_isize (n : Nat) : Int :=
  if n < 9223372036854775808 then (n : Int) else (n : Int) - (USIZE_MOD : Int)

/-- MapPermission from crate::mm: the R/W/X/U flags of a page-table entry. -/
structure MapPermission where
  r : Bool
  w : Bool
  x : Bool
  u : Bool
deriving DecidableEq

/-- TryFrom usize for MapPermission (task/manager.rs lines 19..41).
The source rejects the port when `port & !0x7 != 0` (some bit above bit 2 is
set, i.e. `port >>> 3 != 0`) or when `port & 0x7 == 0` (no permission bit).
Otherwise it starts from U and adds R/W/X according to bits 0..2. -/
def MapPermission.try_from (port : Nat) : Option MapPermission :=
  if port >>> 3 != 0 || port &&& 0x7 == 0 then
    none
  else
    some { r := port &&& 1 != 0, w := port &&& 2 != 0, x := port &&& 4 != 0, u := true }

/-- Page-table entry as observed through MemorySet.translate: a validity bit
plus permission flags. -/
structure PTEntry where
  valid : Bool
  perm : MapPermission
deriving DecidableEq

/-- PageTableEntry.is_valid from crate::mm. -/
def PTEntry.is_valid (p : PTEntry) : Bool := p.valid

/-- Modelled from the spec: the AddressSpace collaborator (crate::mm MemorySet,
whose source is outside the provided files). Its mapping table is abstracted
as an association list from virtual page numbers to page-table entries; the
first entry for a key is the one translate observes. -/
structure MemorySet where
  entries : List (Nat × PTEntry)
deriving DecidableEq

/-- Modelled from the spec: MemorySet.translate looks the virtual page number
up in the mapping table. -/
def MemorySet.translate (ms : MemorySet) (vpn : Nat) : Option PTEntry :=
  (ms.entries.find? (fun e => e.1 == vpn)).map (fun e => e.2)

/-- VirtAddr.page_offset from crate::mm: offset of the address inside its page. -/
def VirtAddr.page_offset (va : Nat) : Nat := va % PAGE_SIZE

/-- VirtAddr.floor from crate::mm: the page containing the address. -/
def VirtAddr.floor (va : Nat) : Nat := va / PAGE_SIZE

/-- VirtAddr.ceil from crate::mm: the address rounded up to a page boundary,
as a page number. -/
def VirtAddr.ceil (va : Nat) : Nat := (va + PAGE_SIZE - 1) / PAGE_SIZE

/-- VPNRange::new(s, e) iterated as a list: the virtual page numbers of the
half-open interval [s, e). -/
def VPNRange (s e : Nat) : List Nat := (List.range (e - s)).map (fun i => s + i)

/-- Modelled from the spec: MemorySet.insert_framed_area installs a mapped
region covering every page of [floor start_va, ceil end_va) with the given
permissions, backed by freshly allocated frames. -/
def MemorySet.insert_framed_area (ms : MemorySet) (start_va end_va : Nat)
    (perm : MapPermission) : MemorySet :=
  ⟨((VPNRange (VirtAddr.floor start_va) (VirtAddr.ceil end_va)).map
      (fun v => (v, ⟨true, perm⟩))) ++ ms.entries⟩

/-- Modelled from the spec: MemorySet.munmap removes one page from the
address space, so that the page is no longer mapped at all. -/
def MemorySet.munmap (ms : MemorySet) (vpn : Nat) : MemorySet :=
  ⟨ms.entries.filter (fun e => e.1 != vpn)⟩

/-- TaskManager.mmap (task/manager.rs lines 61..100), acting on the memory set
of the current task. The source checks page alignment of start, then decodes
port, then short-circuits on len == 0, then rejects the request if any page of
the rounded range is already validly mapped, and otherwise installs the region. -/
def TaskManager.mmap (ms : MemorySet) (start len port : Nat) : Int × MemorySet :=
  if VirtAddr.page_offset start ≠ 0 then
    (-1, ms)
  else
    let end_va := start + len
    match MapPermission.try_from port with
    | none => (-1, ms)
    | some perm =>
      if len = 0 then
        (0, ms)
      else
        let vpn_range := VPNRange (VirtAddr.floor start) (VirtAddr.ceil end_va)
        if vpn_range.any (fun vpn =>
            match ms.translate vpn with
            | some pte => pte.is_valid
            | none => false) then
          (-1, ms)
        else
          (0, ms.insert_framed_area start end_va perm)

/-- TaskManager.munmap (task/manager.rs lines 102..135), acting on the memory
set of the current task. The source checks page alignment, short-circuits on
len == 0, rejects the request if any page of the rounded range is unmapped or
invalid, and otherwise removes every page of the range. -/
def TaskManager.munmap (ms : MemorySet) (start len : Nat) : Int × MemorySet :=
  if VirtAddr.page_offset start ≠ 0 then
    (-1, ms)
  else if len = 0 then
    (0, ms)
  else
    let vpn_range := VPNRange (VirtAddr.floor start) (VirtAddr.ceil (start + len))
    if vpn_range.any (fun vpn =>
        match ms.translate vpn with
        | some pte => !pte.is_valid
        | none => true) then
      (-1, ms)
    else
      (0, vpn_range.foldl (fun m vpn => m.munmap vpn) ms)

/-! Helper lemmas about the address-space model. -/

theorem find?_map_key (L : List Nat) (vpn : Nat) (c : PTEntry) :
    (L.map (fun v => (v, c))).find? (fun e => e.1 == vpn) =
      if vpn ∈ L then some (vpn, c) else none := by
  induction L with
  | nil => simp
  | cons a L ih =>
    by_cases h : vpn = a
    · subst h
      rw [List.map_cons, List.find?_cons_of_pos _ (by simp)]
      simp
    · rw [List.map_cons, List.find?_cons_of_neg _ (by simp [Ne.symm h]), ih]
      simp [List.mem_cons, h]

theorem translate_insert_mem (ms : MemorySet) (sva eva : Nat) (perm : MapPermission)
    (vpn : Nat) (h : vpn ∈ VPNRange (VirtAddr.floor sva) (VirtAddr.ceil eva)) :
    (ms.insert_framed_area sva eva perm).translate vpn = some ⟨true, perm⟩ := by
  unfold MemorySet.insert_framed_area MemorySet.translate
  rw [List.find?_append, find?_map_key, if_pos h]
  rfl

theorem translate_insert_not_mem (ms : MemorySet) (sva eva : Nat) (perm : MapPermission)
    (vpn : Nat) (h : vpn ∉ VPNRange (VirtAddr.floor sva) (VirtAddr.ceil eva)) :
    (ms.insert_framed_area sva eva perm).translate vpn = ms.translate vpn := by
  unfold MemorySet.insert_framed_area MemorySet.translate
  rw [List.find?_append, find?_map_key, if_neg h]
  rfl

theorem find?_filter_key (l : List (Nat × PTEntry)) (a vpn : Nat) :
    (l.filter (fun e => e.1 != a)).find? (fun e => e.1 == vpn) =
      if vpn = a then none else l.find? (fun e => e.1 == vpn) := by
  induction l with
  | nil => simp
  | cons e l ih =>
    by_cases h1 : e.1 = a
    · rw [List.filter_cons_of_neg (by simp [h1]), ih]
      by_cases h2 : vpn = a
      · simp [h2]
      · rw [if_neg h2, if_neg h2,
          List.find?_cons_of_neg _ (by simp only [h1, beq_iff_eq]; exact fun hh => h2 hh.symm)]
    · rw [List.filter_cons_of_pos (by simp [h1])]
      by_cases h2 : e.1 = vpn
      · rw [List.find?_cons_of_pos _ (by simp [h2]), if_neg (fun hh => h1 (h2.trans hh)),
          List.find?_cons_of_pos _ (by simp [h2])]
      · rw [List.find?_cons_of_neg _ (by simp [h2]), ih]
        by_cases h3 : vpn = a
        · simp [h3]
        · rw [if_neg h3, if_neg h3, List.find?_cons_of_neg _ (by simp [h2])]

theorem translate_munmap_page (ms : MemorySet) (a vpn : Nat) :
    (ms.munmap a).translate vpn = if vpn = a then none else ms.translate vpn := by
  unfold MemorySet.munmap MemorySet.translate
  rw [find?_filter_key]
  by_cases h : vpn = a <;> simp [h]

theorem translate_foldl_munmap (L : List Nat) (ms : MemorySet) (vpn : Nat) :
    (L.foldl (fun m v => m.munmap v) ms).translate vpn =
      if vpn ∈ L then none else ms.translate vpn := by
  induction L generalizing ms with
  | nil => simp
  | cons a L ih =>
    rw [List.foldl_cons, ih, translate_munmap_page]
    by_cases h : vpn ∈ L
    · simp [h]
    · by_cases h2 : vpn = a <;> simp [h, h2]

theorem mapped_valid_iff (ms : MemorySet) (vpn : Nat) :
    ((match ms.translate vpn with
      | some pte => pte.is_valid
      | none => false) = true) ↔
      ∃ pte, ms.translate vpn = some pte ∧ pte.is_valid = true := by
  cases h : ms.translate vpn <;> simp [h]

theorem unmapped_or_invalid_iff (ms : MemorySet) (vpn : Nat) :
    ((match ms.translate vpn with
      | some pte => !pte.is_valid
      | none => true) = true) ↔
      (ms.translate vpn = none ∨
        ∃ pte, ms.translate vpn = some pte ∧ pte.is_valid = false) := by
  cases h : ms.translate vpn <;> simp [h]

/-! Claim theorems about mmap and munmap. -/

/-- Claim C1 counterexample: with start = 0 (page aligned), len = 0 and the
invalid port 0, mmap returns -1, not 0 — port validation runs before the
zero-length short-circuit, so the claim that every len = 0 call returns 0,
including calls with invalid ports, is false on the code. -/
theorem mmap_len_zero_cex :
    TaskManager.mmap ⟨[]⟩ 0 0 0 = (-1, ⟨[]⟩) ∧ (TaskManager.mmap ⟨[]⟩ 0 0 0).1 ≠ 0 := by
  decide

/-- Claim C1 (amended): mmap with len = 0 never changes the mapping, for any
start and port; it returns 0 exactly when start is page aligned and port
decodes successfully, and -1 otherwise. -/
theorem mmap_len_zero (ms : MemorySet) (start port : Nat) :
    (TaskManager.mmap ms start 0 port).2 = ms ∧
    ((TaskManager.mmap ms start 0 port).1 = 0 ↔
      VirtAddr.page_offset start = 0 ∧ (MapPermission.try_from port).isSome) := by
  unfold TaskManager.mmap
  by_cases h : VirtAddr.page_offset start = 0
  · cases hp : MapPermission.try_from port <;> simp [h, hp]
  · simp [h]

/-- Postcondition of a successful mmap installation for claim C3: result 0,
every page of the rounded range validly mapped with the decoded permissions,
and every page outside the range translated exactly as before. -/
def MmapInstallPost (ms : MemorySet) (start len port : Nat) (perm : MapPermission) : Prop :=
  (TaskManager.mmap ms start len port).1 = 0 ∧
  (∀ vpn ∈ VPNRange (VirtAddr.floor start) (VirtAddr.ceil (start + len)),
    (TaskManager.mmap ms start len port).2.translate vpn = some ⟨true, perm⟩) ∧
  (∀ vpn, vpn ∉ VPNRange (VirtAddr.floor start) (VirtAddr.ceil (start + len)) →
    (TaskManager.mmap ms start len port).2.translate vpn = ms.translate vpn)

/-- Claim C3: for page-aligned start, successfully decoded port and len > 0,
mmap fails with -1 and leaves the address space unchanged when any page of the
rounded range is already validly mapped, and otherwise installs the whole
rounded range and returns 0. -/
theorem mmap_overlap_check (ms : MemorySet) (start len port : Nat) (perm : MapPermission)
    (ha : VirtAddr.page_offset start = 0)
    (hp : MapPermission.try_from port = some perm) (hl : 0 < len) :
    ((∃ vpn ∈ VPNRange (VirtAddr.floor start) (VirtAddr.ceil (start + len)),
        ∃ pte, ms.translate vpn = some pte ∧ pte.is_valid = true) →
      TaskManager.mmap ms start len port = (-1, ms)) ∧
    ((∀ vpn ∈ VPNRange (VirtAddr.floor start) (VirtAddr.ceil (start + len)),
        ∀ pte, ms.translate vpn = some pte → pte.is_valid = false) →
      MmapInstallPost ms start len port perm) := by
  have hguard : ∀ r : List Nat,
      (r.any (fun vpn =>
        match ms.translate vpn with
        | some pte => pte.is_valid
        | none => false) = true) ↔
      ∃ vpn ∈ r, ∃ pte, ms.translate vpn = some pte ∧ pte.is_valid = true := by
    intro r
    rw [List.any_eq_true]
    exact ⟨fun ⟨v, hv, hf⟩ => ⟨v, hv, (mapped_valid_iff ms v).1 hf⟩,
           fun ⟨v, hv, hf⟩ => ⟨v, hv, (mapped_valid_iff ms v).2 hf⟩⟩
  constructor
  · intro hov
    unfold TaskManager.mmap
    rw [if_neg (by simp [ha]), hp]
    simp only [Nat.pos_iff_ne_zero.1 hl, if_false]
    rw [if_pos ((hguard _).2 hov)]
  · intro hfree
    have hany : ¬ ((VPNRange (VirtAddr.floor start) (VirtAddr.ceil (start + len))).any
        (fun vpn =>
          match ms.translate vpn with
          | some pte => pte.is_valid
          | none => false) = true) := by
      rw [hguard]
      rintro ⟨v, hv, pte, hpte, hval⟩
      rw [hfree v hv pte hpte] at hval
      exact Bool.false_ne_true hval
    have hres : TaskManager.mmap ms start len port =
        (0, ms.insert_framed_area start (start + len) perm) := by
      unfold TaskManager.mmap
      rw [if_neg (by simp [ha]), hp]
      simp only [Nat.pos_iff_ne_zero.1 hl, if_false]
      rw [if_neg hany]
    refine ⟨by rw [hres], fun vpn hv => ?_, fun vpn hv => ?_⟩
    · rw [hres]
      exact translate_insert_mem ms start (start + len) perm vpn hv
    · rw [hres]
      exact translate_insert_not_mem ms start (start + len) perm vpn hv

/-- Witness for claim C3 at a concrete input: empty address space, start 0,
len 1, port 1 (readable). -/
theorem mmap_overlap_check_witness :
    (VirtAddr.page_offset 0 = 0 ∧
      MapPermission.try_from 1 = some ⟨true, false, false, true⟩ ∧ 0 < 1) ∧
    ((∃ vpn ∈ VPNRange (VirtAddr.floor 0) (VirtAddr.ceil (0 + 1)),
        ∃ pte, MemorySet.translate ⟨[]⟩ vpn = some pte ∧ pte.is_valid = true) →
      TaskManager.mmap ⟨[]⟩ 0 1 1 = (-1, ⟨[]⟩)) ∧
    ((∀ vpn ∈ VPNRange (VirtAddr.floor 0) (VirtAddr.ceil (0 + 1)),
        ∀ pte, MemorySet.translate ⟨[]⟩ vpn = some pte → pte.is_valid = false) →
      MmapInstallPost ⟨[]⟩ 0 1 1 ⟨true, false, false, true⟩) :=
  ⟨⟨rfl, rfl, Nat.one_pos⟩,
    mmap_overlap_check ⟨[]⟩ 0 1 1 ⟨true, false, false, true⟩ rfl rfl Nat.one_pos⟩

/-- Postcondition of a successful munmap for claim C4: result 0, every page of
the rounded range no longer mapped, and every page outside the range
translated exactly as before. -/
def MunmapRemovePost (ms : MemorySet) (start len : Nat) : Prop :=
  (TaskManager.munmap ms start len).1 = 0 ∧
  (∀ vpn ∈ VPNRange (VirtAddr.floor start) (VirtAddr.ceil (start + len)),
    (TaskManager.munmap ms start len).2.translate vpn = none) ∧
  (∀ vpn, vpn ∉ VPNRange (VirtAddr.floor start) (VirtAddr.ceil (start + len)) →
    (TaskManager.munmap ms start len).2.translate vpn = ms.translate vpn)

/-- Claim C4: for page-aligned start and len > 0, munmap fails with -1 and
leaves the address space completely unmodified when any page of the rounded
range is unmapped or invalid, and otherwise removes every page of the range
and returns 0. -/
theorem munmap_range_check (ms : MemorySet) (start len : Nat)
    (ha : VirtAddr.page_offset start = 0) (hl : 0 < len) :
    ((∃ vpn ∈ VPNRange (VirtAddr.floor start) (VirtAddr.ceil (start + len)),
        ms.translate vpn = none ∨
          ∃ pte, ms.translate vpn = some pte ∧ pte.is_valid = false) →
      TaskManager.munmap ms start len = (-1, ms)) ∧
    ((∀ vpn ∈ VPNRange (VirtAddr.floor start) (VirtAddr.ceil (start + len)),
        ∃ pte, ms.translate vpn = some pte ∧ pte.is_valid = true) →
      MunmapRemovePost ms start len) := by
  have hguard : ∀ r : List Nat,
      (r.any (fun vpn =>
        match ms.translate vpn with
        | some pte => !pte.is_valid
        | none => true) = true) ↔
      ∃ vpn ∈ r, ms.translate vpn = none ∨
        ∃ pte, ms.translate vpn = some pte ∧ pte.is_valid = false := by
    intro r
    rw [List.any_eq_true]
    exact ⟨fun ⟨v, hv, hf⟩ => ⟨v, hv, (unmapped_or_invalid_iff ms v).1 hf⟩,
           fun ⟨v, hv, hf⟩ => ⟨v, hv, (unmapped_or_invalid_iff ms v).2 hf⟩⟩
  constructor
  · intro hbad
    unfold TaskManager.munmap
    rw [if_neg (by simp [ha]), if_neg (Nat.pos_iff_ne_zero.1 hl)]
    rw [if_pos ((hguard _).2 hbad)]
  · intro hall
    have hany : ¬ ((VPNRange (VirtAddr.floor start) (VirtAddr.ceil (start + len))).any
        (fun vpn =>
          match ms.translate vpn with
          | some pte => !pte.is_valid
          | none => true) = true) := by
      rw [hguard]
      rintro ⟨v, hv, hbad⟩
      rcases hall v hv with ⟨pte, hpte, hval⟩
      rcases hbad with hnone | ⟨pte2, hpte2, hval2⟩
      · rw [hpte] at hnone; exact Option.noConfusion hnone
      · rw [hpte] at hpte2
        cases hpte2
        rw [hval] at hval2
        exact Bool.noConfusion hval2
    have hres : TaskManager.munmap ms start len =
        (0, (VPNRange (VirtAddr.floor start) (VirtAddr.ceil (start + len))).foldl
          (fun m vpn => m.munmap vpn) ms) := by
      unfold TaskManager.munmap
      rw [if_neg (by simp [ha]), if_neg (Nat.pos_iff_ne_zero.1 hl), if_neg hany]
    refine ⟨by rw [hres], fun vpn hv => ?_, fun vpn hv => ?_⟩
    · rw [hres]
      show (_ : MemorySet).translate vpn = none
      rw [translate_foldl_munmap, if_pos hv]
    · rw [hres]
      show (_ : MemorySet).translate vpn = ms.translate vpn
      rw [translate_foldl_munmap, if_neg hv]

/-- Witness for claim C4 at a concrete input: one page validly mapped at page
0, start 0, len 1. -/
theorem munmap_range_check_witness :
    (VirtAddr.page_offset 0 = 0 ∧ 0 < 1) ∧
    ((∃ vpn ∈ VPNRange (VirtAddr.floor 0) (VirtAddr.ceil (0 + 1)),
        MemorySet.translate ⟨[(0, ⟨true, ⟨true, false, false, true⟩⟩)]⟩ vpn = none ∨
          ∃ pte, MemorySet.translate ⟨[(0, ⟨true, ⟨true, false, false, true⟩⟩)]⟩ vpn =
            some pte ∧ pte.is_valid = false) →
      TaskManager.munmap ⟨[(0, ⟨true, ⟨true, false, false, true⟩⟩)]⟩ 0 1 =
        (-1, ⟨[(0, ⟨true, ⟨true, false, false, true⟩⟩)]⟩)) ∧
    ((∀ vpn ∈ VPNRange (VirtAddr.floor 0) (VirtAddr.ceil (0 + 1)),
        ∃ pte, MemorySet.translate ⟨[(0, ⟨true, ⟨true, false, false, true⟩⟩)]⟩ vpn =
          some pte ∧ pte.is_valid = true) →
      MunmapRemovePost ⟨[(0, ⟨true, ⟨true, false, false, true⟩⟩)]⟩ 0 1) :=
  ⟨⟨rfl, Nat.one_pos⟩,
    munmap_range_check ⟨[(0, ⟨true, ⟨true, false, false, true⟩⟩)]⟩ 0 1 rfl Nat.one_pos⟩

/-- Claim C7: for len > 0, mmap rejects a non-page-aligned start with -1 and a
port that fails permission decoding with -1, and decoding succeeds exactly for
port values 1..7. -/
theorem mmap_validation (ms : MemorySet) (start len port : Nat) (_hl : 0 < len) :
    (VirtAddr.page_offset start ≠ 0 → TaskManager.mmap ms start len port = (-1, ms)) ∧
    (MapPermission.try_from port = none → TaskManager.mmap ms start len port = (-1, ms)) ∧
    ((MapPermission.try_from port).isSome ↔ 1 ≤ port ∧ port ≤ 7) := by
  refine ⟨fun h => ?_, fun h => ?_, ?_⟩
  · unfold TaskManager.mmap
    rw [if_pos h]
  · unfold TaskManager.mmap
    by_cases ha : VirtAddr.page_offset start = 0
    · rw [if_neg (by simp [ha]), h]
    · rw [if_pos ha]
  · by_cases hsmall : port < 8
    · interval_cases port <;> simp [MapPermission.try_from]
    · have h8 : port >>> 3 ≠ 0 := by
        rw [Nat.shiftRight_eq_div_pow]
        omega
      unfold MapPermission.try_from
      rw [if_pos (by simp [h8])]
      simp
      omega

/-- Witness for claim C7 at a concrete input: empty address space, start 0,
len 1, port 9. -/
theorem mmap_validation_witness :
    0 < 1 ∧
    (VirtAddr.page_offset 0 ≠ 0 → TaskManager.mmap ⟨[]⟩ 0 1 9 = (-1, ⟨[]⟩)) ∧
    (MapPermission.try_from 9 = none → TaskManager.mmap ⟨[]⟩ 0 1 9 = (-1, ⟨[]⟩)) ∧
    ((MapPermission.try_from 9).isSome ↔ 1 ≤ 9 ∧ 9 ≤ 7) :=
  ⟨Nat.one_pos, mmap_validation ⟨[]⟩ 0 1 9 Nat.one_pos⟩

/-! The scheduler ready queue (task/manager.rs lines 45..58). Tasks are
identified by their pid; the VecDeque is modelled as a list whose head is the
front of the queue. -/

/-- TaskManager: holds the ready queue of schedulable tasks. -/
@[ext]
structure TaskManager where
  ready_queue : List Nat
deriving DecidableEq

/-- TaskManager::new: empty ready queue. -/
def TaskManager.new : TaskManager := ⟨[]⟩

/-- TaskManager::add: push_back onto the ready queue. -/
def TaskManager.add (tm : TaskManager) (task : Nat) : TaskManager :=
  ⟨tm.ready_queue ++ [task]⟩

/-- TaskManager::fetch: pop_front from the ready queue; none when empty. -/
def TaskManager.fetch (tm : TaskManager) : Option Nat × TaskManager :=
  match tm.ready_queue with
  | [] => (none, tm)
  | t :: rest => (some t, ⟨rest⟩)

/-- A sequence of add calls, in list order. -/
def TaskManager.add_all (tm : TaskManager) (ts : List Nat) : TaskManager :=
  ts.foldl TaskManager.add tm

/-- Repeated fetch calls, up to the given fuel, collecting the fetched tasks
until the queue signals empty. -/
def TaskManager.drain : Nat → TaskManager → List Nat
  | 0, _ => []
  | Nat.succ n, tm =>
    match tm.fetch with
    | (none, _) => []
    | (some t, tm2) => t :: TaskManager.drain n tm2

theorem add_all_ready_queue (tm : TaskManager) (ts : List Nat) :
    (tm.add_all ts).ready_queue = tm.ready_queue ++ ts := by
  induction ts generalizing tm with
  | nil => simp [TaskManager.add_all]
  | cons t ts ih =>
    show (TaskManager.add_all (tm.add t) ts).ready_queue = _
    rw [ih]
    simp [TaskManager.add]

theorem drain_ready_queue (l : List Nat) :
    TaskManager.drain l.length ⟨l⟩ = l := by
  induction l with
  | nil => rfl
  | cons t ts ih =>
    show t :: TaskManager.drain ts.length ⟨ts⟩ = t :: ts
    rw [ih]

/-- Claim C8: the ready queue is strictly FIFO. add appends at the tail, fetch
removes and returns the head, fetch on an empty queue returns no task, and a
sequence of adds with no intervening fetches is fetched back in the same
order. -/
theorem ready_queue_fifo (tm : TaskManager) (t : Nat) (ts l : List Nat) :
    (tm.add t).ready_queue = tm.ready_queue ++ [t] ∧
    TaskManager.fetch ⟨t :: ts⟩ = (some t, ⟨ts⟩) ∧
    TaskManager.fetch ⟨[]⟩ = (none, ⟨[]⟩) ∧
    TaskManager.drain l.length (TaskManager.new.add_all l) = l := by
  refine ⟨rfl, rfl, rfl, ?_⟩
  have h : TaskManager.new.add_all l = ⟨l⟩ := by
    apply TaskManager.ext
    rw [add_all_ready_queue]
    rfl
  rw [h, drain_ready_queue]

/-! The waitpid syscall (syscall/process.rs lines 79..112). The caller is
represented by its children vector; each child entry carries the fields that
sys_waitpid observes. The user-space write through exit_code_ptr is modelled
as the written value; the extra_owners field models Arc::strong_count minus
the one strong reference held by the children vector itself, so that after
Vec::remove moves that reference into the local binding, the strong count
observed by the assertion equals 1 + extra_owners. -/

/-- A child task as observed by sys_waitpid. -/
structure ChildTCB where
  pid : Nat
  is_zombie : Bool
  exit_code : Int
  extra_owners : Nat
deriving DecidableEq

/-- The child-selector test of sys_waitpid: pid == -1 matches any child,
otherwise pid as usize must equal the child pid. -/
def waitpid_match (pid : Int) (p : ChildTCB) : Bool :=
  pid == -1 || isize_to_usize pid == p.pid

/-- Mirrors children.iter().enumerate().find over the zombie-and-match
predicate: the first matching zombie child together with its index. -/
def find_zombie (pid : Int) : List ChildTCB → Nat → Option (Nat × ChildTCB)
  | [], _ => none
  | p :: rest, i =>
    if p.is_zombie && waitpid_match pid p then some (i, p)
    else find_zombie pid rest (i + 1)

/-- Outcome of sys_waitpid: either the fatal assertion failure, or a normal
return carrying the result value, the children vector after the call, and the
value written through exit_code_ptr (none when nothing is written). -/
inductive WaitOutcome where
  | panic
  | ok (res : Int) (children : List ChildTCB) (written : Option Int)
deriving DecidableEq

/-- sys_waitpid (syscall/process.rs lines 79..112): returns -1 when no child
matches the selector, otherwise looks for the first matching zombie child;
when found, removes it, asserts its strong count is exactly 1, writes its exit
code and returns its pid; otherwise returns -2. -/
def sys_waitpid (pid : Int) (children : List ChildTCB) : WaitOutcome :=
  if ¬ (children.any (waitpid_match pid) = true) then
    WaitOutcome.ok (-1) children none
  else
    match find_zombie pid children 0 with
    | some (idx, child) =>
      let remaining := children.eraseIdx idx
      if 1 + child.extra_owners = 1 then
        WaitOutcome.ok (usize_to_isize child.pid) remaining (some child.exit_code)
      else
        WaitOutcome.panic
    | none => WaitOutcome.ok (-2) children none

theorem find_zombie_eq_none (pid : Int) (l : List ChildTCB) (i : Nat) :
    find_zombie pid l i = none ↔
      ∀ c ∈ l, ¬ (c.is_zombie = true ∧ waitpid_match pid c = true) := by
  induction l generalizing i with
  | nil => simp [find_zombie]
  | cons p l ih =>
    unfold find_zombie
    by_cases h : (p.is_zombie && waitpid_match pid p) = true
    · rw [if_pos h]
      simp only [Bool.and_eq_true] at h
      simp [h]
    · rw [if_neg h, ih]
      simp only [Bool.and_eq_true] at h
      constructor
      · intro hall c hc
        rcases List.mem_cons.1 hc with rfl | hc2
        · exact h
        · exact hall c hc2
      · intro hall c hc
        exact hall c (List.mem_cons_of_mem _ hc)

theorem find_zombie_eq_some (pid : Int) (l : List ChildTCB) (i j : Nat) (c : ChildTCB)
    (h : find_zombie pid l i = some (j, c)) :
    c ∈ l ∧ c.is_zombie = true ∧ waitpid_match pid c = true ∧
      i ≤ j ∧ l.get? (j - i) = some c := by
  induction l generalizing i with
  | nil => exact absurd h (by simp [find_zombie])
  | cons p l ih =>
    unfold find_zombie at h
    by_cases hp : (p.is_zombie && waitpid_match pid p) = true
    · rw [if_pos hp] at h
      cases h
      simp only [Bool.and_eq_true] at hp
      exact ⟨List.mem_cons_self _ _, hp.1, hp.2, Nat.le_refl _, by simp⟩
    · rw [if_neg hp] at h
      rcases ih (i + 1) h with ⟨hmem, hz, hm, hij, hget⟩
      refine ⟨List.mem_cons_of_mem _ hmem, hz, hm, Nat.le_of_succ_le hij, ?_⟩
      have hji : j - i = (j - (i + 1)) + 1 := by omega
      rw [hji]
      simpa using hget

theorem usize_to_isize_of_lt (n : Nat) (h : n < 9223372036854775808) :
    usize_to_isize n = (n : Int) := if_pos h

/-- Claim C2: sys_waitpid returns -1 when no child matches the selector,
-2 when some child matches but no matching child is a zombie, and otherwise
removes exactly one matching zombie child, writes its exit code through
exit_code_ptr, and returns its pid. The ownership hypothesis is the spec
invariant that the children vector holds the only strong reference to each
child; the pid bound reflects that pids are small sequential integers. -/
theorem sys_waitpid_spec (pid : Int) (children : List ChildTCB)
    (hown : ∀ c ∈ children, c.extra_owners = 0)
    (hpid : ∀ c ∈ children, c.pid < 9223372036854775808) :
    ((∀ c ∈ children, waitpid_match pid c = false) →
      sys_waitpid pid children = WaitOutcome.ok (-1) children none) ∧
    ((∃ c ∈ children, waitpid_match pid c = true) →
      (∀ c ∈ children, waitpid_match pid c = true → c.is_zombie = false) →
      sys_waitpid pid children = WaitOutcome.ok (-2) children none) ∧
    ((∃ c ∈ children, waitpid_match pid c = true ∧ c.is_zombie = true) →
      ∃ idx c, children.get? idx = some c ∧ waitpid_match pid c = true ∧
        c.is_zombie = true ∧
        sys_waitpid pid children =
          WaitOutcome.ok ((c.pid : Int)) (children.eraseIdx idx) (some c.exit_code)) := by
  refine ⟨fun hall => ?_, fun hex hnz => ?_, fun hz => ?_⟩
  · have hany : ¬ (children.any (waitpid_match pid) = true) := by
      intro hany
      rcases List.any_eq_true.1 hany with ⟨c, hc, hm⟩
      rw [hall c hc] at hm
      exact Bool.noConfusion hm
    unfold sys_waitpid
    rw [if_pos hany]
  · rcases hex with ⟨c0, hc0, hm0⟩
    have hany : children.any (waitpid_match pid) = true :=
      List.any_eq_true.2 ⟨c0, hc0, hm0⟩
    have hfz : find_zombie pid children 0 = none := by
      rw [find_zombie_eq_none]
      rintro c hc ⟨hzz, hmm⟩
      rw [hnz c hc hmm] at hzz
      exact Bool.noConfusion hzz
    unfold sys_waitpid
    rw [if_neg (not_not_intro hany), hfz]
  · rcases hz with ⟨c0, hc0, hm0, hz0⟩
    have hany : children.any (waitpid_match pid) = true :=
      List.any_eq_true.2 ⟨c0, hc0, hm0⟩
    cases hfz : find_zombie pid children 0 with
    | none =>
      exact absurd ⟨hz0, hm0⟩ ((find_zombie_eq_none pid children 0).1 hfz c0 hc0)
    | some jc =>
      obtain ⟨j, c⟩ := jc
      rcases find_zombie_eq_some pid children 0 j c hfz with ⟨hmem, hzz, hmm, -, hget⟩
      rw [Nat.sub_zero] at hget
      refine ⟨j, c, hget, hmm, hzz, ?_⟩
      unfold sys_waitpid
      rw [if_neg (not_not_intro hany), hfz]
      show (if 1 + c.extra_owners = 1 then _ else _) = _
      rw [if_pos (by rw [hown c hmem]), usize_to_isize_of_lt c.pid (hpid c hmem)]

/-- Witness for claim C2 at a concrete input: selector pid 2 and a single
zombie child with pid 2, exit code 7, no extra owners. -/
theorem sys_waitpid_spec_witness :
    ((∀ c ∈ [ChildTCB.mk 2 true 7 0], c.extra_owners = 0) ∧
      (∀ c ∈ [ChildTCB.mk 2 true 7 0], c.pid < 9223372036854775808)) ∧
    (((∀ c ∈ [ChildTCB.mk 2 true 7 0], waitpid_match 2 c = false) →
      sys_waitpid 2 [ChildTCB.mk 2 true 7 0] =
        WaitOutcome.ok (-1) [ChildTCB.mk 2 true 7 0] none) ∧
    ((∃ c ∈ [ChildTCB.mk 2 true 7 0], waitpid_match 2 c = true) →
      (∀ c ∈ [ChildTCB.mk 2 true 7 0], waitpid_match 2 c = true → c.is_zombie = false) →
      sys_waitpid 2 [ChildTCB.mk 2 true 7 0] =
        WaitOutcome.ok (-2) [ChildTCB.mk 2 true 7 0] none) ∧
    ((∃ c ∈ [ChildTCB.mk 2 true 7 0], waitpid_match 2 c = true ∧ c.is_zombie = true) →
      ∃ idx c, ([ChildTCB.mk 2 true 7 0]).get? idx = some c ∧ waitpid_match 2 c = true ∧
        c.is_zombie = true ∧
        sys_waitpid 2 [ChildTCB.mk 2 true 7 0] =
          WaitOutcome.ok ((c.pid : Int)) (([ChildTCB.mk 2 true 7 0]).eraseIdx idx)
            (some c.exit_code))) :=
  ⟨⟨by decide, by decide⟩, sys_waitpid_spec 2 [ChildTCB.mk 2 true 7 0] (by decide) (by decide)⟩

/-- Claim C9: once the matched zombie child has been found, the success path
goes through exactly when the removed child has no owner besides the local
binding (the strong count seen by the assertion is 1 + extra_owners); any
other live owner makes the call fatal (panic), never a recovered return. -/
theorem waitpid_reaped_sole_owner (pid : Int) (children : List ChildTCB)
    (idx : Nat) (c : ChildTCB) (h : find_zombie pid children 0 = some (idx, c)) :
    (c.extra_owners = 0 →
      sys_waitpid pid children =
        WaitOutcome.ok (usize_to_isize c.pid) (children.eraseIdx idx) (some c.exit_code)) ∧
    (c.extra_owners ≠ 0 → sys_waitpid pid children = WaitOutcome.panic) := by
  rcases find_zombie_eq_some pid children 0 idx c h with ⟨hmem, hzz, hmm, -, -⟩
  have hany : children.any (waitpid_match pid) = true :=
    List.any_eq_true.2 ⟨c, hmem, hmm⟩
  constructor
  · intro h0
    unfold sys_waitpid
    rw [if_neg (not_not_intro hany), h]
    show (if 1 + c.extra_owners = 1 then _ else _) = _
    rw [if_pos (by rw [h0])]
  · intro hne
    unfold sys_waitpid
    rw [if_neg (not_not_intro hany), h]
    show (if 1 + c.extra_owners = 1 then _ else _) = _
    rw [if_neg (by omega)]

/-- Witness for claim C9 at a concrete input: selector -1, one zombie child
with pid 5, exit code 7 and no extra owners, found at index 0. -/
theorem waitpid_reaped_sole_owner_witness :
    find_zombie (-1) [ChildTCB.mk 5 true 7 0] 0 = some (0, ChildTCB.mk 5 true 7 0) ∧
    (((ChildTCB.mk 5 true 7 0).extra_owners = 0 →
      sys_waitpid (-1) [ChildTCB.mk 5 true 7 0] =
        WaitOutcome.ok (usize_to_isize (ChildTCB.mk 5 true 7 0).pid)
          (([ChildTCB.mk 5 true 7 0]).eraseIdx 0) (some (ChildTCB.mk 5 true 7 0).exit_code)) ∧
    ((ChildTCB.mk 5 true 7 0).extra_owners ≠ 0 →
      sys_waitpid (-1) [ChildTCB.mk 5 true 7 0] = WaitOutcome.panic)) :=
  ⟨by decide,
    waitpid_reaped_sole_owner (-1) [ChildTCB.mk 5 true 7 0] 0 (ChildTCB.mk 5 true 7 0)
      (by decide)⟩

/-- Claim C10: whenever sys_waitpid returns normally with -1 or -2, the
children vector is unchanged and nothing is written through exit_code_ptr; a
write happens only on the success path, together with the removal of exactly
one child. -/
theorem sys_waitpid_frame (pid : Int) (children : List ChildTCB)
    (hpid : ∀ c ∈ children, c.pid < 9223372036854775808)
    (r : Int) (ch : List ChildTCB) (w : Option Int)
    (h : sys_waitpid pid children = WaitOutcome.ok r ch w) :
    ((r = -1 ∨ r = -2) → ch = children ∧ w = none) ∧
    (w.isSome = true → 0 ≤ r ∧ ch.length + 1 = children.length) := by
  unfold sys_waitpid at h
  by_cases hany : children.any (waitpid_match pid) = true
  · rw [if_neg (not_not_intro hany)] at h
    cases hfz : find_zombie pid children 0 with
    | none =>
      rw [hfz] at h
      cases h
      exact ⟨fun _ => ⟨rfl, rfl⟩, fun hw => by simp at hw⟩
    | some jc =>
      obtain ⟨j, c⟩ := jc
      rw [hfz] at h
      have h2 : (if 1 + c.extra_owners = 1 then
          WaitOutcome.ok (usize_to_isize c.pid) (children.eraseIdx j) (some c.exit_code)
        else WaitOutcome.panic) = WaitOutcome.ok r ch w := h
      rcases find_zombie_eq_some pid children 0 j c hfz with ⟨hmem, -, -, -, hget⟩
      rw [Nat.sub_zero] at hget
      by_cases h0 : 1 + c.extra_owners = 1
      · rw [if_pos h0] at h2
        cases h2
        have hr : usize_to_isize c.pid = (c.pid : Int) :=
          usize_to_isize_of_lt c.pid (hpid c hmem)
        have hj : j < children.length := by
          rcases List.get?_eq_some.1 hget with ⟨hj, -⟩
          exact hj
        constructor
        · rintro (h1 | h1) <;> rw [hr] at h1 <;> omega
        · intro hw
          refine ⟨by rw [hr]; omega, ?_⟩
          rw [List.length_eraseIdx, if_pos hj]
          omega
      · rw [if_neg h0] at h2
        exact WaitOutcome.noConfusion h2
  · rw [if_pos hany] at h
    cases h
    exact ⟨fun _ => ⟨rfl, rfl⟩, fun hw => by simp at hw⟩

/-- Witness for claim C10 at a concrete input: selector -1, one zombie child
with pid 5 and exit code 7, reaped successfully. -/
theorem sys_waitpid_frame_witness :
    ((∀ c ∈ [ChildTCB.mk 5 true 7 0], c.pid < 9223372036854775808) ∧
      sys_waitpid (-1) [ChildTCB.mk 5 true 7 0] = WaitOutcome.ok 5 [] (some 7)) ∧
    (((5 : Int) = -1 ∨ (5 : Int) = -2) → ([] : List ChildTCB) = [ChildTCB.mk 5 true 7 0] ∧
      (some (7 : Int)) = none) ∧
    ((some (7 : Int)).isSome = true →
      0 ≤ (5 : Int) ∧ ([] : List ChildTCB).length + 1 = [ChildTCB.mk 5 true 7 0].length) :=
  ⟨⟨by decide, by decide⟩,
    sys_waitpid_frame (-1) [ChildTCB.mk 5 true 7 0] (by decide) 5 [] (some 7) (by decide)⟩

/-! The fork and spawn syscalls (syscall/process.rs lines 50..62 and 163..182).
Arc sharing is modelled by indirection through pids: the kernel task table is
an association list from pid to task data, and the ready queue and the
children vectors hold pids. The TaskControlBlock internals (fork, new, exec,
the pid allocator), which live outside the provided sources, are modelled from
the spec. A freshly created task is entered into the table when its last
pre-scheduling mutation is done, which matches the code mutating the same Arc
in place before any other holder can observe it. -/

/-- Task data: the fields of a TaskControlBlock observed by fork and spawn.
x10 is the saved return-value register a0 of the trap context. -/
structure TCBData where
  x10 : Nat
  memory_set : MemorySet
  parent : Option Nat
  children : List Nat
  is_zombie : Bool
  exit_code : Int
deriving DecidableEq

/-- Kernel state threaded through fork and spawn: task table keyed by pid, the
pid of the current task, the pid allocator state, and the ready queue. -/
structure KState where
  tasks : List (Nat × TCBData)
  cur_pid : Nat
  next_pid : Nat
  ready_queue : List Nat
deriving DecidableEq

/-- Dereference a pid, as the Arc held for that task. -/
def KState.getTask (s : KState) (p : Nat) : Option TCBData :=
  (s.tasks.find? (fun e => e.1 == p)).map (fun e => e.2)

/-- Mutate the task behind a pid in place. -/
def KState.setTask (s : KState) (p : Nat) (d : TCBData) : KState :=
  { s with tasks := s.tasks.map (fun e => if e.1 = p then (p, d) else e) }

/-- Enter a newly created task into the table. -/
def KState.push_task (s : KState) (p : Nat) (d : TCBData) : KState :=
  { s with tasks := s.tasks ++ [(p, d)] }

theorem getTask_push_self (s : KState) (p : Nat) (d : TCBData)
    (h : s.getTask p = none) :
    (s.push_task p d).getTask p = some d := by
  unfold KState.getTask at h ⊢
  unfold KState.push_task
  have hf : s.tasks.find? (fun e => e.1 == p) = none := by
    cases hh : s.tasks.find? (fun e => e.1 == p) with
    | none => rfl
    | some e => rw [hh] at h; exact Option.noConfusion h
  rw [List.find?_append, hf]
  simp

theorem getTask_push_other (s : KState) (p q : Nat) (d : TCBData) (h : p ≠ q) :
    (s.push_task p d).getTask q = s.getTask q := by
  unfold KState.getTask KState.push_task
  rw [List.find?_append]
  have hone : ([(p, d)].find? (fun e => e.1 == q)) = none := by
    rw [List.find?_cons_of_neg _ (by simp [h])]
    rfl
  rw [hone]
  cases s.tasks.find? (fun e => e.1 == q) <;> rfl

theorem find?_set_self (l : List (Nat × TCBData)) (p : Nat) (d : TCBData)
    (h : l.find? (fun e => e.1 == p) ≠ none) :
    (l.map (fun e => if e.1 = p then (p, d) else e)).find? (fun e => e.1 == p) =
      some (p, d) := by
  induction l with
  | nil => exact absurd rfl h
  | cons e l ih =>
    by_cases he : e.1 = p
    · rw [List.map_cons, if_pos he, List.find?_cons_of_pos _ (by simp)]
    · rw [List.map_cons, if_neg he, List.find?_cons_of_neg _ (by simp [he])]
      apply ih
      rw [List.find?_cons_of_neg _ (by simp [he])] at h
      exact h

theorem find?_set_other (l : List (Nat × TCBData)) (p q : Nat) (d : TCBData) (h : p ≠ q) :
    (l.map (fun e => if e.1 = p then (p, d) else e)).find? (fun e => e.1 == q) =
      l.find? (fun e => e.1 == q) := by
  induction l with
  | nil => rfl
  | cons e l ih =>
    by_cases he : e.1 = p
    · rw [List.map_cons, if_pos he, List.find?_cons_of_neg _ (by simp [h]),
        List.find?_cons_of_neg _ (by simp [he, h]), ih]
    · rw [List.map_cons, if_neg he]
      by_cases hq : e.1 = q
      · rw [List.find?_cons_of_pos _ (by simp [hq]), List.find?_cons_of_pos _ (by simp [hq])]
      · rw [List.find?_cons_of_neg _ (by simp [hq]), List.find?_cons_of_neg _ (by simp [hq]), ih]

theorem getTask_set_self (s : KState) (p : Nat) (d : TCBData)
    (h : s.getTask p ≠ none) :
    (s.setTask p d).getTask p = some d := by
  unfold KState.getTask KState.setTask
  rw [find?_set_self]
  · rfl
  · intro hf
    apply h
    unfold KState.getTask
    rw [hf]
    rfl

theorem getTask_set_other (s : KState) (p q : Nat) (d : TCBData) (h : p ≠ q) :
    (s.setTask p d).getTask q = s.getTask q := by
  unfold KState.getTask KState.setTask
  rw [find?_set_other _ _ _ _ h]

/-- Modelled from the spec: TaskControlBlock::fork duplicates the address
space and the trap context of the caller, allocates a fresh pid, sets the
parent back-reference of the child to the caller, and appends the child to the
children of the caller. Returns the pid and data of the new task together with
the updated state. -/
def TaskControlBlock.fork (s : KState) (parent : TCBData) : Nat × TCBData × KState :=
  let cpid := s.next_pid
  let child : TCBData :=
    { x10 := parent.x10, memory_set := parent.memory_set, parent := some s.cur_pid,
      children := [], is_zombie := false, exit_code := 0 }
  (cpid, child,
    KState.setTask ⟨s.tasks, s.cur_pid, cpid + 1, s.ready_queue⟩ s.cur_pid
      { parent with children := parent.children ++ [cpid] })

/-- sys_fork (syscall/process.rs lines 50..62): forks the current task, sets
the saved a0 register of the child to 0 before the child is admitted to the
ready queue (so the child observes 0 when first resumed), admits the child to
the ready queue, and returns the child pid. -/
def sys_fork (s : KState) : Option (Int × KState) :=
  match s.getTask s.cur_pid with
  | none => none
  | some cur =>
    let r := TaskControlBlock.fork s cur
    let new_pid := r.1
    let new_task := { r.2.1 with x10 := 0 }
    let s1 := r.2.2.push_task new_pid new_task
    let s2 := { s1 with ready_queue := s1.ready_queue ++ [new_pid] }
    some (usize_to_isize new_pid, s2)

/-- Postcondition of sys_fork for claim C5: the parent gets back the fresh
nonnegative child pid, the child pid is appended to the ready queue, the child
task has its saved a0 register equal to 0, its parent back-reference set to
the caller and a copy of the caller address space, and the caller children
collection gains exactly the child pid. -/
def ForkPost (s : KState) (cur : TCBData) : Prop :=
  ∃ s3, sys_fork s = some (((s.next_pid : Nat) : Int), s3) ∧
    0 ≤ ((s.next_pid : Nat) : Int) ∧
    s3.ready_queue = s.ready_queue ++ [s.next_pid] ∧
    (∃ cd, s3.getTask s.next_pid = some cd ∧ cd.x10 = 0 ∧
      cd.parent = some s.cur_pid ∧ cd.memory_set = cur.memory_set) ∧
    (∃ pd, s3.getTask s.cur_pid = some pd ∧ pd.children = cur.children ++ [s.next_pid])

/-- Claim C5: fork creates a new task, returns its fresh pid (nonnegative) to
the parent, and patches the saved return-value register of the child to 0
before admitting it to the ready queue. -/
theorem sys_fork_spec (s : KState) (cur : TCBData)
    (hcur : s.getTask s.cur_pid = some cur)
    (hfresh : s.getTask s.next_pid = none)
    (hpid : s.next_pid < 9223372036854775808) :
    ForkPost s cur := by
  have hne : s.cur_pid ≠ s.next_pid := by
    intro hh
    rw [hh, hfresh] at hcur
    exact Option.noConfusion hcur
  have h1 : (KState.setTask ⟨s.tasks, s.cur_pid, s.next_pid + 1, s.ready_queue⟩ s.cur_pid
      { cur with children := cur.children ++ [s.next_pid] }).getTask s.next_pid = none := by
    rw [getTask_set_other _ _ _ _ hne]
    exact hfresh
  have hframe : (KState.mk s.tasks s.cur_pid (s.next_pid + 1) s.ready_queue).getTask
      s.cur_pid = s.getTask s.cur_pid := rfl
  have e1 : sys_fork s = some (usize_to_isize s.next_pid,
      { ((KState.setTask ⟨s.tasks, s.cur_pid, s.next_pid + 1, s.ready_queue⟩ s.cur_pid
          { cur with children := cur.children ++ [s.next_pid] }).push_task s.next_pid
          { x10 := 0, memory_set := cur.memory_set, parent := some s.cur_pid,
            children := [], is_zombie := false, exit_code := 0 }) with
        ready_queue := s.ready_queue ++ [s.next_pid] }) := by
    unfold sys_fork
    rw [hcur]
    rfl
  rw [usize_to_isize_of_lt _ hpid] at e1
  refine ⟨_, e1, by omega, rfl, ?_, ?_⟩
  · refine ⟨{ x10 := 0, memory_set := cur.memory_set, parent := some s.cur_pid,
                children := [], is_zombie := false, exit_code := 0 }, ?_, rfl, rfl, rfl⟩
    exact getTask_push_self _ _ _ h1
  · refine ⟨{ cur with children := cur.children ++ [s.next_pid] }, ?_, rfl⟩
    show ((KState.setTask ⟨s.tasks, s.cur_pid, s.next_pid + 1, s.ready_queue⟩ s.cur_pid
        { cur with children := cur.children ++ [s.next_pid] }).push_task s.next_pid
        { x10 := 0, memory_set := cur.memory_set, parent := some s.cur_pid,
          children := [], is_zombie := false, exit_code := 0 }).getTask s.cur_pid = _
    rw [getTask_push_other _ _ _ _ (fun hh => hne hh.symm)]
    refine getTask_set_self _ _ _ ?_
    rw [hframe, hcur]
    exact fun hh => Option.noConfusion hh

/-- Witness for claim C5 at a concrete input: a single running task with pid 0
whose saved a0 is 7, pid allocator at 1, empty ready queue. -/
theorem sys_fork_spec_witness :
    ((KState.mk [(0, TCBData.mk 7 ⟨[]⟩ none [] false 0)] 0 1 []).getTask 0 =
        some (TCBData.mk 7 ⟨[]⟩ none [] false 0) ∧
      (KState.mk [(0, TCBData.mk 7 ⟨[]⟩ none [] false 0)] 0 1 []).getTask 1 = none ∧
      (1 : Nat) < 9223372036854775808) ∧
    ForkPost (KState.mk [(0, TCBData.mk 7 ⟨[]⟩ none [] false 0)] 0 1 [])
      (TCBData.mk 7 ⟨[]⟩ none [] false 0) :=
  ⟨⟨by decide, by decide, by decide⟩,
    sys_fork_spec (KState.mk [(0, TCBData.mk 7 ⟨[]⟩ none [] false 0)] 0 1 [])
      (TCBData.mk 7 ⟨[]⟩ none [] false 0) (by decide) (by decide) (by decide)⟩

/-- Modelled from the spec: TaskControlBlock::new builds a fresh task directly
from a binary image; its address space is loaded from the image through the
external loader contract (load_ms), never copied from any existing task. -/
def TaskControlBlock.new_tcb (load_ms : Nat → MemorySet) (data : Nat) : TCBData :=
  { x10 := 0, memory_set := load_ms data, parent := none, children := [],
    is_zombie := false, exit_code := 0 }

/-- Modelled from the spec: exec replaces the program image and address space
of the task in place with the loaded binary, preserving identity, parent and
children. -/
def TaskControlBlock.exec (load_ms : Nat → MemorySet) (d : TCBData) (data : Nat) : TCBData :=
  { d with memory_set := load_ms data }

/-- sys_spawn (syscall/process.rs lines 163..182): looks the path up in the
loader; on failure returns -1 with no effect; on success creates a new task
from the image, sets its parent back-reference to the caller, appends it to
the caller children, replaces its image via exec, admits it to the ready queue
and returns its pid. -/
def sys_spawn (load_ms : Nat → MemorySet) (get_app_data_by_name : Nat → Option Nat)
    (path : Nat) (s : KState) : Option (Int × KState) :=
  match get_app_data_by_name path with
  | some data =>
    match s.getTask s.cur_pid with
    | none => none
    | some parent =>
      let cpid := s.next_pid
      let task := TaskControlBlock.new_tcb load_ms data
      let task2 := { task with parent := some s.cur_pid }
      let s1 := KState.setTask ⟨s.tasks, s.cur_pid, cpid + 1, s.ready_queue⟩ s.cur_pid
        { parent with children := parent.children ++ [cpid] }
      let task3 := TaskControlBlock.exec load_ms task2 data
      let s2 := s1.push_task cpid task3
      let s3 := { s2 with ready_queue := s2.ready_queue ++ [cpid] }
      some (usize_to_isize cpid, s3)
  | none => some (-1, s)

/-- Postcondition of a successful spawn for claim C6: the caller gets back the
fresh nonnegative child pid, the child pid is appended to the ready queue, the
child task has its address space loaded from the named image (not copied from
the caller) and its parent back-reference set to the caller, and the caller
children collection gains exactly the child pid. -/
def SpawnPost (load_ms : Nat → MemorySet) (f : Nat → Option Nat) (path : Nat)
    (s : KState) (parent : TCBData) (data : Nat) : Prop :=
  ∃ s3, sys_spawn load_ms f path s = some (((s.next_pid : Nat) : Int), s3) ∧
    0 ≤ ((s.next_pid : Nat) : Int) ∧
    s3.ready_queue = s.ready_queue ++ [s.next_pid] ∧
    (∃ cd, s3.getTask s.next_pid = some cd ∧ cd.memory_set = load_ms data ∧
      cd.parent = some s.cur_pid) ∧
    (∃ pd, s3.getTask s.cur_pid = some pd ∧ pd.children = parent.children ++ [s.next_pid])

/-- Claim C6: spawn of an unknown path returns -1 and changes nothing; spawn
of a known path creates a new task whose address space comes from the named
binary image, links it as a child of the caller, admits it to the ready queue,
and returns its pid. -/
theorem sys_spawn_spec (load_ms : Nat → MemorySet) (f : Nat → Option Nat) (path : Nat)
    (s : KState) (parent : TCBData)
    (hcur : s.getTask s.cur_pid = some parent)
    (hfresh : s.getTask s.next_pid = none)
    (hpid : s.next_pid < 9223372036854775808) :
    (f path = none → sys_spawn load_ms f path s = some (-1, s)) ∧
    (∀ data, f path = some data → SpawnPost load_ms f path s parent data) := by
  have hne : s.cur_pid ≠ s.next_pid := by
    intro hh
    rw [hh, hfresh] at hcur
    exact Option.noConfusion hcur
  constructor
  · intro hnone
    unfold sys_spawn
    rw [hnone]
  · intro data hdata
    have h1 : (KState.setTask ⟨s.tasks, s.cur_pid, s.next_pid + 1, s.ready_queue⟩ s.cur_pid
        { parent with children := parent.children ++ [s.next_pid] }).getTask
          s.next_pid = none := by
      rw [getTask_set_other _ _ _ _ hne]
      exact hfresh
    have hframe : (KState.mk s.tasks s.cur_pid (s.next_pid + 1) s.ready_queue).getTask
        s.cur_pid = s.getTask s.cur_pid := rfl
    have e1 : sys_spawn load_ms f path s = some (usize_to_isize s.next_pid,
        { ((KState.setTask ⟨s.tasks, s.cur_pid, s.next_pid + 1, s.ready_queue⟩ s.cur_pid
            { parent with children := parent.children ++ [s.next_pid] }).push_task s.next_pid
            (TaskControlBlock.exec load_ms
              { TaskControlBlock.new_tcb load_ms data with parent := some s.cur_pid }
              data)) with
          ready_queue := s.ready_queue ++ [s.next_pid] }) := by
      unfold sys_spawn
      rw [hdata, hcur]
      rfl
    rw [usize_to_isize_of_lt _ hpid] at e1
    refine ⟨_, e1, by omega, rfl, ?_, ?_⟩
    · refine ⟨TaskControlBlock.exec load_ms
        { TaskControlBlock.new_tcb load_ms data with parent := some s.cur_pid } data,
        ?_, rfl, rfl⟩
      exact getTask_push_self _ _ _ h1
    · refine ⟨{ parent with children := parent.children ++ [s.next_pid] }, ?_, rfl⟩
      show ((KState.setTask ⟨s.tasks, s.cur_pid, s.next_pid + 1, s.ready_queue⟩ s.cur_pid
          { parent with children := parent.children ++ [s.next_pid] }).push_task s.next_pid
          (TaskControlBlock.exec load_ms
            { TaskControlBlock.new_tcb load_ms data with parent := some s.cur_pid }
            data)).getTask s.cur_pid = _
      rw [getTask_push_other _ _ _ _ (fun hh => hne hh.symm)]
      refine getTask_set_self _ _ _ ?_
      rw [hframe, hcur]
      exact fun hh => Option.noConfusion hh

/-- Witness for claim C6 at a concrete input: loader knowing only path 1 with
image 3, a single running task with pid 0, pid allocator at 1. -/
theorem sys_spawn_spec_witness :
    ((KState.mk [(0, TCBData.mk 7 ⟨[]⟩ none [] false 0)] 0 1 []).getTask 0 =
        some (TCBData.mk 7 ⟨[]⟩ none [] false 0) ∧
      (KState.mk [(0, TCBData.mk 7 ⟨[]⟩ none [] false 0)] 0 1 []).getTask 1 = none ∧
      (1 : Nat) < 9223372036854775808) ∧
    (((fun p => if p = 1 then some 3 else none) 1 = none →
      sys_spawn (fun _ => ⟨[]⟩) (fun p => if p = 1 then some 3 else none) 1
        (KState.mk [(0, TCBData.mk 7 ⟨[]⟩ none [] false 0)] 0 1 []) =
          some (-1, KState.mk [(0, TCBData.mk 7 ⟨[]⟩ none [] false 0)] 0 1 [])) ∧
    (∀ data, (fun p => if p = 1 then some 3 else none) 1 = some data →
      SpawnPost (fun _ => ⟨[]⟩) (fun p => if p = 1 then some 3 else none) 1
        (KState.mk [(0, TCBData.mk 7 ⟨[]⟩ none [] false 0)] 0 1 [])
        (TCBData.mk 7 ⟨[]⟩ none [] false 0) data)) :=
  ⟨⟨by decide, by decide, by decide⟩,
    sys_spawn_spec (fun _ => ⟨[]⟩) (fun p => if p = 1 then some 3 else none) 1
      (KState.mk [(0, TCBData.mk 7 ⟨[]⟩ none [] false 0)] 0 1 [])
      (TCBData.mk 7 ⟨[]⟩ none [] false 0) (by decide) (by decide) (by decide)⟩

end OS5
